import Mathlib

/-!
Verification of the turndown-node repository: a shallow embedding of the
Markdown document model (`turndown-core/src/ast.rs`), the serializer
(`turndown-core/src/serialize.rs`), the tree converter
(`turndown-cdp/src/convert.rs`), the streaming converter
(`turndown-napi/src/lol_streaming.rs`) and the rule engine
(`turndown/src/rules/mod.rs`), together with theorems settling the
specification claims about them.

Rust `String` values are modelled by Lean `String`; Rust `usize`/`u32`
by `Nat` (with an explicit `% 2^32` where u32 wrapping matters);
`Option`/fallible paths by Lean `Option`.
-/

set_option maxHeartbeats 1000000

namespace Turndown

/-! ## String helpers shared by the Rust sources -/

/-- The backtick character (U+0060). -/
def backtick : Char := Char.ofNat 96

/-- Rust `char::is_whitespace`: the Unicode White_Space property. -/
def rust_is_whitespace (c : Char) : Bool :=
  c == ' ' || c == '\t' || c == '\n' || c.toNat == 0x0B || c.toNat == 0x0C ||
  c == '\r' || c.toNat == 0x85 || c.toNat == 0xA0 || c.toNat == 0x1680 ||
  (0x2000 ≤ c.toNat && c.toNat ≤ 0x200A) || c.toNat == 0x2028 ||
  c.toNat == 0x2029 || c.toNat == 0x202F || c.toNat == 0x205F ||
  c.toNat == 0x3000

/-- Rust `str::trim`: remove leading and trailing whitespace. -/
def rust_trim (s : String) : String :=
  ⟨((s.data.dropWhile rust_is_whitespace).reverse.dropWhile rust_is_whitespace).reverse⟩

/-- Rust `str::trim_end`: remove trailing whitespace. -/
def rust_trim_end (s : String) : String :=
  ⟨(s.data.reverse.dropWhile rust_is_whitespace).reverse⟩

/-- Rust `String::len`: the UTF-8 byte length of a string. -/
def utf8_len (s : String) : Nat :=
  s.data.foldl (fun n c => n + c.utf8Size) 0

/-- A string of `n` copies of character `c` (Rust loops pushing `c`). -/
def char_repeat (c : Char) (n : Nat) : String := ⟨List.replicate n c⟩

/-- Rust `str::repeat` for a string. -/
def str_repeat (s : String) (n : Nat) : String := ⟨(List.replicate n s.data).flatten⟩

/-- Strip one trailing carriage return from a reversed line accumulator
(Rust `str::lines` strips the CR of a CR-LF line ending). -/
def strip_cr_rev (acc : List Char) : List Char :=
  match acc with
  | '\r' :: rest => rest
  | _ => acc

/-- Helper for `rust_lines`: `acc` is the current line, reversed. -/
def rust_lines_aux (acc : List Char) : List Char → List String
  | [] => if acc.isEmpty then [] else [⟨acc.reverse⟩]
  | c :: cs =>
    if c == '\n' then ⟨(strip_cr_rev acc).reverse⟩ :: rust_lines_aux [] cs
    else rust_lines_aux (c :: acc) cs

/-- Rust `str::lines`: split at LF or CR-LF; a final line ending produces
no extra empty line. -/
def rust_lines (s : String) : List String := rust_lines_aux [] s.data

/-- Loop body of `collapse_whitespace` (identical in
`turndown-cdp/src/convert.rs` and `turndown-napi/src/streaming.rs` /
`lol_streaming.rs`): `prev` is the `prev_was_whitespace` flag. -/
def collapse_ws_aux (prev : Bool) : List Char → List Char
  | [] => []
  | c :: cs =>
    if rust_is_whitespace c then
      if prev then collapse_ws_aux true cs else ' ' :: collapse_ws_aux true cs
    else c :: collapse_ws_aux false cs

/-- Rust `collapse_whitespace` from `turndown-cdp/src/convert.rs` (the same
function appears verbatim in `turndown-napi/src/streaming.rs` and
`turndown-napi/src/lol_streaming.rs`): each run of whitespace becomes a
single ASCII space. -/
def collapse_whitespace (s : String) : String := ⟨collapse_ws_aux false s.data⟩

/-- Rust `escape_markdown` character test from `turndown-cdp/src/convert.rs`
(also verbatim in the napi streaming modules). -/
def is_escaped_char (c : Char) : Bool :=
  c == '\\' || c == '*' || c == '_' || c == '[' || c == ']' || c == '#' ||
  c == '+' || c == '-' || c == '!' || c == backtick

/-- Loop body of `escape_markdown`. -/
def escape_chars : List Char → List Char
  | [] => []
  | c :: cs =>
    if is_escaped_char c then '\\' :: c :: escape_chars cs
    else c :: escape_chars cs

/-- Rust `escape_markdown` from `turndown-cdp/src/convert.rs`. -/
def escape_markdown (t : String) : String := ⟨escape_chars t.data⟩

/-- Interior loop of `collapse_and_trim` from
`turndown-core/src/serialize.rs`: `k` is the running `newline_count`;
a newline is kept only while the run length is at most two. -/
def collapse_nl_aux (k : Nat) : List Char → List Char
  | [] => []
  | c :: cs =>
    if c == '\n' then
      if k + 1 ≤ 2 then c :: collapse_nl_aux (k + 1) cs
      else collapse_nl_aux (k + 1) cs
    else c :: collapse_nl_aux 0 cs

/-- Rust `collapse_and_trim` from `turndown-core/src/serialize.rs`: trim
leading and trailing newlines, then collapse interior runs of newlines
down to at most two. (The Rust code works on bytes; the newline byte
never occurs inside a multi-byte UTF-8 sequence, so the by-character
model is exact and the final `String::from_utf8` cannot fail.) -/
def collapse_and_trim (s : String) : String :=
  let l := s.data.dropWhile (· == '\n')
  ⟨collapse_nl_aux 0 ((l.reverse.dropWhile (· == '\n')).reverse)⟩

/-- One step of Rust `str::parse::<u32>` digit accumulation. -/
def parse_digits (l : List Char) (acc : Nat) : Option Nat :=
  match l with
  | [] => some acc
  | c :: cs =>
    if '0' ≤ c && c ≤ '9' then
      let v := acc * 10 + (c.toNat - '0'.toNat)
      if v < 4294967296 then parse_digits cs v else none
    else none

/-- Rust `str::parse::<u32>` (as used for the `start` attribute):
an optional leading `+`, then one or more digits, failing on overflow. -/
def rust_parse_u32 (s : String) : Option Nat :=
  match s.data with
  | [] => none
  | '+' :: rest => if rest.isEmpty then none else parse_digits rest 0
  | l => parse_digits l 0

/-- Rust `str::to_lowercase` (ASCII case mapping suffices for tag and
attribute names). -/
def rust_to_lowercase (s : String) : String := ⟨s.data.map Char.toLower⟩

/-! ## Document model (`turndown-core/src/ast.rs`) -/

/-- An inline Markdown node (`Inline` in `ast.rs`). -/
inductive Inline where
  | text (s : String)
  | strong (content : List Inline)
  | emphasis (content : List Inline)
  | code (s : String)
  | link (content : List Inline) (url : String) (title : Option String)
  | image (alt : String) (url : String) (title : Option String)
  | lineBreak
  | htmlInline (raw : String)
deriving Repr

mutual
/-- A block-level Markdown node (`Block` in `ast.rs`). `level` is a `u8`
and `start` a `u32` in the source; both are modelled by `Nat`. -/
inductive Block where
  | document (children : List Block)
  | heading (level : Nat) (content : List Inline)
  | paragraph (inlines : List Inline)
  | blockQuote (children : List Block)
  | list (ordered : Bool) (start : Nat) (items : List ListItem)
  | codeBlock (language : Option String) (code : String) (fenced : Bool)
  | thematicBreak
  | table (headers : List (List Inline)) (rows : List (List (List Inline)))
  | htmlBlock (raw : String)
deriving Repr

/-- A list item (`ListItem` in `ast.rs`). -/
inductive ListItem where
  | mk (content : List Block)
deriving Repr
end

/-- The `content` field of `ListItem`. -/
def ListItem.content : ListItem → List Block
  | ⟨c⟩ => c

/-- Rust `ListItem::from_inlines`. -/
def ListItem.from_inlines (inlines : List Inline) : ListItem :=
  ⟨[Block.paragraph inlines]⟩

mutual
/-- Rust `Inline::is_blank` from `ast.rs`. -/
def Inline.is_blank : Inline → Bool
  | .text t => (rust_trim t).isEmpty
  | .strong l => inlines_blank l
  | .emphasis l => inlines_blank l
  | .code c => c.isEmpty
  | .link l _ _ => inlines_blank l
  | .image _ _ _ => false
  | .lineBreak => false
  | .htmlInline h => (rust_trim h).isEmpty

/-- Rust `inlines.iter().all(|i| i.is_blank())`. -/
def inlines_blank : List Inline → Bool
  | [] => true
  | i :: rest => i.is_blank && inlines_blank rest
end

mutual
/-- Rust `Block::is_blank` from `ast.rs`. -/
def Block.is_blank : Block → Bool
  | .document bs => blocks_blank bs
  | .heading _ content => inlines_blank content
  | .paragraph l => inlines_blank l
  | .blockQuote bs => blocks_blank bs
  | .list _ _ items => items_blank items
  | .codeBlock _ code _ => (rust_trim code).isEmpty
  | .thematicBreak => false
  | .table headers rows =>
    headers.all (fun h => inlines_blank h) &&
      rows.all (fun r => r.all (fun c => inlines_blank c))
  | .htmlBlock h => (rust_trim h).isEmpty

/-- Rust `blocks.iter().all(|b| b.is_blank())`. -/
def blocks_blank : List Block → Bool
  | [] => true
  | b :: rest => b.is_blank && blocks_blank rest

/-- Rust `ListItem::is_blank` from `ast.rs`. -/
def ListItem.is_blank : ListItem → Bool
  | ⟨content⟩ => blocks_blank content

/-- Rust `items.iter().all(|i| i.is_blank())`. -/
def items_blank : List ListItem → Bool
  | [] => true
  | i :: rest => i.is_blank && items_blank rest
end

mutual
/-- Rust `Inline::text_len` from `ast.rs` (byte lengths, markup overhead for
strong/emphasis/code/link/image as in the source). -/
def Inline.text_len : Inline → Nat
  | .text t => utf8_len t
  | .strong l => inlines_text_len_aux l + 4
  | .emphasis l => inlines_text_len_aux l + 4
  | .code c => utf8_len c + 2
  | .link l _ _ => inlines_text_len_aux l + 4
  | .image alt _ _ => utf8_len alt + 5
  | .lineBreak => 0
  | .htmlInline h => utf8_len h

/-- Sum of `text_len` over a list of inlines. -/
def inlines_text_len_aux : List Inline → Nat
  | [] => 0
  | i :: rest => i.text_len + inlines_text_len_aux rest
end

/-- Rust `inlines_text_len` from `ast.rs`. -/
def inlines_text_len (l : List Inline) : Nat := inlines_text_len_aux l

/-! ## Options (`turndown-core/src/options.rs`) -/

/-- Rust `HeadingStyle`. -/
inductive HeadingStyle where
  | setext
  | atx
deriving Repr, DecidableEq

/-- Rust `CodeBlockStyle`. -/
inductive CodeBlockStyle where
  | indented
  | fenced
deriving Repr, DecidableEq

/-- Rust `LinkStyle`. -/
inductive LinkStyle where
  | inlined
  | referenced
deriving Repr, DecidableEq

/-- Rust `LinkReferenceStyle`. -/
inductive LinkReferenceStyle where
  | full
  | collapsed
  | shortcut
deriving Repr, DecidableEq

/-- Rust `Options` from `turndown-core/src/options.rs`. The `TurndownOptions`
struct in `turndown/src/service.rs` has exactly the same fields and
defaults and is modelled by this same structure. -/
structure Options where
  heading_style : HeadingStyle
  hr : String
  bullet_list_marker : Char
  code_block_style : CodeBlockStyle
  fence : String
  em_delimiter : Char
  strong_delimiter : String
  link_style : LinkStyle
  link_reference_style : LinkReferenceStyle
deriving Repr

/-- Rust `Options::default`. -/
def Options.default : Options :=
  { heading_style := .setext
    hr := "* * *"
    bullet_list_marker := '*'
    code_block_style := .indented
    fence := "```"
    em_delimiter := '_'
    strong_delimiter := "**"
    link_style := .inlined
    link_reference_style := .full }

/-! ## Serializer (`turndown-core/src/serialize.rs`)

The Rust serializer appends to one output `String` and occasionally
truncates back to a recorded offset; since every write between an offset
record and its inspection is an append, each helper is modelled as a
function returning the appended substring. The one slice whose bounds
are checked at run time (`&widths[..col_count]` in `serialize_table`)
is modelled by an `Option` guard, so a `none` result corresponds to a
Rust panic. -/

/-- First character test, Rust `str::starts_with(char)`. -/
def starts_with_char (s : String) (c : Char) : Bool :=
  match s.data with
  | [] => false
  | d :: _ => d == c

/-- Last character test, Rust `str::ends_with(char)`. -/
def ends_with_char (s : String) (c : Char) : Bool :=
  match s.data.getLast? with
  | some d => d == c
  | none => false

/-- The optional ` "title"` suffix written inside link/image parentheses. -/
def title_part : Option String → String
  | some t => " \"" ++ t ++ "\""
  | none => ""

mutual
/-- Rust `serialize_inline` from `serialize.rs`. -/
def serialize_inline (options : Options) : Inline → String
  | .text t => t
  | .strong content =>
    let inner := serialize_inlines options content
    if (rust_trim inner).isEmpty then ""
    else options.strong_delimiter ++ inner ++ options.strong_delimiter
  | .emphasis content =>
    let inner := serialize_inlines options content
    if (rust_trim inner).isEmpty then ""
    else String.singleton options.em_delimiter ++ inner ++
      String.singleton options.em_delimiter
  | .code code =>
    if code.isEmpty then ""
    else
      let backticks := if code.data.any (· == backtick) then "``" else "`"
      let space :=
        if starts_with_char code backtick || ends_with_char code backtick then " "
        else ""
      backticks ++ space ++ code ++ space ++ backticks
  | .link content url title =>
    "[" ++ serialize_inlines options content ++ "](" ++ url ++
      title_part title ++ ")"
  | .image alt url title =>
    "![" ++ alt ++ "](" ++ url ++ title_part title ++ ")"
  | .lineBreak => "  \n"
  | .htmlInline h => h

/-- Rust `serialize_inlines` from `serialize.rs`. -/
def serialize_inlines (options : Options) : List Inline → String
  | [] => ""
  | i :: rest => serialize_inline options i ++ serialize_inlines options rest
end

/-- The ATX arm of `serialize_heading` (`level` hashes, a space, the
rendered text, then the block terminator). -/
def atx_heading (level : Nat) (rendered : String) : String :=
  char_repeat '#' level ++ " " ++ rendered ++ "\n\n"

/-- Rust `serialize_heading` from `serialize.rs`. `text_len` is the number of
bytes the rendered inline content occupies (`out.len() - start_len`). -/
def serialize_heading (level : Nat) (content : List Inline)
    (options : Options) : String :=
  let rendered := serialize_inlines options content
  if (rust_trim rendered).isEmpty then ""
  else
    let text_len := utf8_len rendered
    if options.heading_style = HeadingStyle.setext ∧ level ≤ 2 then
      rendered ++ "\n" ++
        char_repeat (if level == 1 then '=' else '-') text_len ++ "\n\n"
    else atx_heading level rendered

/-- Rust `serialize_code_block` from `serialize.rs`. -/
def serialize_code_block (language : Option String) (code : String)
    (fenced : Bool) (options : Options) : String :=
  if fenced = true ∨ options.code_block_style = CodeBlockStyle.fenced then
    options.fence ++ language.getD "" ++ "\n" ++ code ++ "\n" ++
      options.fence ++ "\n\n"
  else
    String.join ((rust_lines code).map (fun l => "    " ++ l ++ "\n")) ++ "\n"

/-- One pass of the width-update loop in `serialize_table`: for every
column index `i < widths.len()`, the width is raised to the text length
of the row's cell `i` (cells beyond the column count are ignored). -/
def table_row_update (widths : List Nat) (row : List (List Inline)) : List Nat :=
  widths.enum.map (fun p =>
    match row.get? p.1 with
    | some cell => max p.2 (inlines_text_len cell)
    | none => p.2)

/-- The column widths computed by `serialize_table`: header text
lengths, raised by every row's cells, then clamped to a minimum of 3. -/
def table_widths (headers : List (List Inline))
    (rows : List (List (List Inline))) : List Nat :=
  (rows.foldl table_row_update (headers.map (fun h => inlines_text_len h))).map
    (fun w => max w 3)

/-- One table row as written by `serialize_table` (used for both the
header row and data rows, which share the same cell loop): each cell is
a space, the serialized content, padding up to the column width
(`saturating_sub`), then ` |`. -/
def table_cells (cells : List (List Inline)) (widths : List Nat)
    (options : Options) : String :=
  String.join (cells.enum.map (fun p =>
    let s := serialize_inlines options p.2
    let tl := utf8_len s
    let w := (widths.get? p.1).getD 3
    " " ++ s ++ char_repeat ' ' (w - tl) ++ " |"))

/-- Rust `serialize_table` from `serialize.rs`. The separator row iterates
`&widths[..col_count]`, a slice that panics when
`col_count > widths.len()`; the guard models that panic as `none`. -/
def serialize_table (headers : List (List Inline))
    (rows : List (List (List Inline))) (options : Options) : Option String :=
  if headers.isEmpty then some ""
  else
    let col_count := headers.length
    let widths := table_widths headers rows
    if col_count ≤ widths.length then
      let sep := String.join ((widths.take col_count).map
        (fun w => " " ++ char_repeat '-' w ++ " |"))
      some ("|" ++ table_cells headers widths options ++ "\n" ++
        "|" ++ sep ++ "\n" ++
        String.join (rows.map
          (fun row => "|" ++ table_cells row widths options ++ "\n")) ++
        "\n")
    else none

/-- The `> ` line-prefixing loop of the `BlockQuote` arm of
`serialize_block`: every line gets `> `, an originally empty line a
bare `>`. -/
def quote_lines (content : String) : String :=
  String.intercalate "\n"
    ((rust_lines content).map (fun l => if l.isEmpty then ">" else "> " ++ l))

/-- The continuation-line indentation loop at the end of
`serialize_list_item`: every line after the first is indented by the
list indent plus `prefix_len` spaces, and every line gets a trailing
newline. -/
def indent_item_lines (content : String) (indent : String)
    (prefix_len : Nat) : String :=
  String.join ((rust_lines content).enum.map (fun p =>
    (if p.1 > 0 then indent ++ char_repeat ' ' prefix_len else "") ++
      p.2 ++ "\n"))

mutual
/-- Rust `serialize_block` from `serialize.rs`. -/
def serialize_block (options : Options) (depth : Nat) : Block → Option String
  | .document blocks => serialize_blocks options depth blocks
  | .heading level content => some (serialize_heading level content options)
  | .paragraph inlines =>
    let s := serialize_inlines options inlines
    some (if (rust_trim s).isEmpty then "" else s ++ "\n\n")
  | .blockQuote blocks => do
    let inner ← serialize_blocks options depth blocks
    pure (quote_lines (rust_trim_end inner) ++ "\n\n")
  | .list ordered start items => do
    let body ← serialize_list_items options depth ordered start
      (str_repeat "    " depth) 0 items
    pure (body ++ "\n")
  | .codeBlock language code fenced =>
    some (serialize_code_block language code fenced options)
  | .thematicBreak => some (options.hr ++ "\n\n")
  | .table headers rows => serialize_table headers rows options
  | .htmlBlock h => some (h ++ "\n\n")
termination_by b => (sizeOf b, 0)

/-- Rust `serialize_blocks` from `serialize.rs`: blank blocks are skipped. -/
def serialize_blocks (options : Options) (depth : Nat) :
    List Block → Option String
  | [] => some ""
  | b :: bs =>
    if b.is_blank then serialize_blocks options depth bs
    else do
      let s ← serialize_block options depth b
      let rest ← serialize_blocks options depth bs
      pure (s ++ rest)
termination_by bs => (sizeOf bs, 1)

/-- The item loop of `serialize_list`: `i` is the running item index.
The ordered-item number is `start + i as u32` (u32 wrapping
arithmetic), the unordered marker gets three trailing spaces, and the
prefix width feeds the continuation indentation. -/
def serialize_list_items (options : Options) (depth : Nat) (ordered : Bool)
    (start : Nat) (indent : String) (i : Nat) :
    List ListItem → Option String
  | [] => some ""
  | item :: rest => do
    let num := (start + i) % 4294967296
    let prefix_str :=
      if ordered then toString num ++ ".  "
      else String.singleton options.bullet_list_marker ++ "   "
    let prefix_len := if ordered then (toString num).length + 3 else 4
    let item_str ← serialize_list_item options (depth + 1) prefix_len indent item
    let rest_str ← serialize_list_items options depth ordered start indent
      (i + 1) rest
    pure (indent ++ prefix_str ++ item_str ++ rest_str)
termination_by items => (sizeOf items, 1)

/-- Rust `serialize_list_item` from `serialize.rs`. -/
def serialize_list_item (options : Options) (depth : Nat) (prefix_len : Nat)
    (indent : String) : ListItem → Option String
  | ⟨content⟩ => do
    let raw ← serialize_item_blocks options depth content
    pure (indent_item_lines raw indent prefix_len)
termination_by item => (sizeOf item, 1)

/-- The block loop inside `serialize_list_item`: a paragraph's inline
content is written directly, with a `\n\n` separator only when it is
not the last block; a nested list gets a leading newline; every other
block is serialized as usual. -/
def serialize_item_blocks (options : Options) (depth : Nat) :
    List Block → Option String
  | [] => some ""
  | [b] => serialize_item_block options depth true b
  | b :: rest => do
    let s ← serialize_item_block options depth false b
    let r ← serialize_item_blocks options depth rest
    pure (s ++ r)
termination_by bs => (sizeOf bs, 2)

/-- One iteration of the block loop inside `serialize_list_item`
(`last` tells whether this is the final block of the item). -/
def serialize_item_block (options : Options) (depth : Nat) (last : Bool) :
    Block → Option String
  | .paragraph inlines =>
    some (serialize_inlines options inlines ++ (if last then "" else "\n\n"))
  | .list ord st its => do
    let s ← serialize_block options depth (.list ord st its)
    pure ("\n" ++ s)
  | b => serialize_block options depth b
termination_by b => (sizeOf b, 1)
end

/-- Rust `serialize` from `serialize.rs`: serialize the block, then apply the
global `collapse_and_trim` post-processing. -/
def serialize (block : Block) (options : Options) : Option String :=
  (serialize_block options 0 block).map collapse_and_trim

/-! ## Tree converter (`turndown-cdp/src/convert.rs`) -/

/-- Modelled from the spec: the CDP `Node` type (`turndown-cdp`'s
`crate::node` module is not under `src/`). Per §6 of the spec a node has
a type discriminant, a tag-name accessor, an attribute lookup, ordered
children and a node value. -/
inductive NodeType where
  | element
  | text
  | comment
  | document
  | documentFragment
deriving Repr, DecidableEq

/-- Modelled from the spec: a materialized read-only node (type
discriminant, tag name, optional text value, attributes, ordered
children), as described in §6 of the spec. -/
inductive Node where
  | mk (node_type : NodeType) (tag : String) (node_value : Option String)
      (attrs : List (String × String)) (children : List Node)
deriving Repr

/-- The type discriminant of a node. -/
def Node.node_type : Node → NodeType
  | ⟨t, _, _, _, _⟩ => t

/-- Modelled from the spec: the lowercase-normalized tag-name accessor. -/
def Node.tag_name : Node → String
  | ⟨_, tag, _, _, _⟩ => rust_to_lowercase tag

/-- The optional text value of a node. -/
def Node.node_value : Node → Option String
  | ⟨_, _, v, _, _⟩ => v

/-- The ordered children of a node. -/
def Node.children : Node → List Node
  | ⟨_, _, _, _, cs⟩ => cs

/-- Modelled from the spec: case-insensitive attribute lookup. -/
def Node.attr (n : Node) : String → Option String
  | name =>
    match n with
    | ⟨_, _, _, attrs, _⟩ =>
      (attrs.find? (fun p => rust_to_lowercase p.1 == rust_to_lowercase name)).map (fun p => p.2)

/-- Whether the node is an element. -/
def Node.is_element (n : Node) : Bool := n.node_type == NodeType.element

mutual
/-- Modelled from the spec: the recursive text-content accessor (the
concatenated values of all descendant text nodes). -/
def Node.text_content : Node → String
  | ⟨nt, _, v, _, children⟩ =>
    match nt with
    | .text => v.getD ""
    | _ => nodes_text_content children

/-- Concatenated text content of a list of nodes. -/
def nodes_text_content : List Node → String
  | [] => ""
  | n :: rest => n.text_content ++ nodes_text_content rest
end

mutual
/-- Rust `inline_to_text` from `convert.rs` (the same function appears
verbatim in `lol_streaming.rs`). -/
def inline_to_text : Inline → String
  | .text t => t
  | .strong inner => inlines_to_text inner
  | .emphasis inner => inlines_to_text inner
  | .code c => c
  | .link content _ _ => inlines_to_text content
  | .image alt _ _ => alt
  | .lineBreak => "\n"
  | .htmlInline h => h

/-- Concatenation of `inline_to_text` over a list (Rust
`iter().map(inline_to_text).collect()` / `join("")`). -/
def inlines_to_text : List Inline → String
  | [] => ""
  | i :: rest => inline_to_text i ++ inlines_to_text rest
end

/-- Rust `c.to_digit(10)` for a decimal digit character. -/
def char_digit (c : Char) : Option Nat :=
  if '0' ≤ c && c ≤ '9' then some (c.toNat - '0'.toNat) else none

/-- Rust `str::split_whitespace` (whitespace-separated pieces, empties
skipped); `acc` is the current piece, reversed. -/
def split_ws_aux (acc : List Char) : List Char → List String
  | [] => if acc.isEmpty then [] else [⟨acc.reverse⟩]
  | c :: cs =>
    if rust_is_whitespace c then
      if acc.isEmpty then split_ws_aux [] cs
      else ⟨acc.reverse⟩ :: split_ws_aux [] cs
    else split_ws_aux (c :: acc) cs

/-- Rust `str::split_whitespace`. -/
def split_ws (s : String) : List String := split_ws_aux [] s.data

/-- The `language-` class extraction used by the `pre` branch of
`convert_element` (and by `finalize_element` in `lol_streaming.rs`):
the first whitespace-separated class starting with `language-`, with
that 9-byte prefix removed. -/
def extract_language (class_attr : String) : Option String :=
  ((split_ws class_attr).find? (fun s => s.startsWith "language-")).map
    (fun s => ⟨s.data.drop 9⟩)

/-- The `pre` branch's `node.element_children().find(|c| c.tag_name() == "code")`. -/
def find_code (l : List Node) : Option Node :=
  (l.filter Node.is_element).find? (fun c => c.tag_name == "code")

/-- Rust `flatten_document` from `convert.rs`: unwrap `Document` wrappers
containing exactly one child. -/
def flatten_document : Block → Block
  | .document [b] => flatten_document b
  | other => other

mutual
/-- The loop of `convert_children` from `convert.rs`, over the child
list. `in_pre` is the traversal `Context` (its only field). -/
def convert_nodes (options : Options) (in_pre : Bool) : List Node → List Block
  | [] => []
  | child :: rest =>
    match child.node_type with
    | .text =>
      let text := (child.node_value).getD ""
      if !(rust_trim text).isEmpty && !in_pre then
        Block.paragraph [Inline.text (escape_markdown (collapse_whitespace text))] ::
          convert_nodes options in_pre rest
      else convert_nodes options in_pre rest
    | .element =>
      match convert_element options in_pre child with
      | some b => b :: convert_nodes options in_pre rest
      | none => convert_nodes options in_pre rest
    | _ => convert_nodes options in_pre rest
termination_by l => (sizeOf l, 1)

/-- Rust `convert_element` from `convert.rs`. -/
def convert_element (options : Options) (in_pre : Bool) : Node → Option Block
  | n@(.mk _ rawTag _ _ children) =>
    let tag := rust_to_lowercase rawTag
    match tag with
    | "p" =>
      let inlines := collect_inlines_nodes options in_pre children
      if inlines_blank inlines then none else some (.paragraph inlines)
    | "h1" | "h2" | "h3" | "h4" | "h5" | "h6" =>
      match (tag.data.get? 1).bind char_digit with
      | none => none
      | some level =>
        let inlines := collect_inlines_nodes options in_pre children
        if inlines_blank inlines then none
        else some (.heading level inlines)
    | "blockquote" =>
      let blocks := convert_nodes options in_pre children
      if blocks.isEmpty then none else some (.blockQuote blocks)
    | "ul" =>
      let items := collect_li_items options in_pre children
      if items.isEmpty then none
      else some (.list false 1 items)
    | "ol" =>
      let start := ((n.attr "start").bind rust_parse_u32).getD 1
      let items := collect_li_items options in_pre children
      if items.isEmpty then none
      else some (.list true start items)
    | "pre" =>
      match find_code children with
      | some code_node =>
        let code_text := code_node.text_content
        let language := (code_node.attr "class").bind extract_language
        let fenced := decide (options.code_block_style = CodeBlockStyle.fenced)
        some (.codeBlock language code_text fenced)
      | none => some (.codeBlock none n.text_content false)
    | "hr" => some .thematicBreak
    | "table" => convert_table options in_pre children
    | "div" | "section" | "article" | "main" | "aside" | "header" | "footer"
    | "nav" | "figure" | "figcaption" | "address" | "form" | "fieldset" =>
      let blocks := convert_nodes options in_pre children
      match blocks with
      | [b] => some b
      | [] => none
      | bs => some (.document bs)
    | "a" | "strong" | "b" | "em" | "i" | "code" | "span" | "img" | "br" =>
      match convert_inline_element options in_pre n with
      | some inline => some (.paragraph [inline])
      | none => none
    | "script" | "style" | "noscript" | "template" => none
    | _ =>
      let blocks := convert_nodes options in_pre children
      if blocks.isEmpty then
        let inlines := collect_inlines_nodes options in_pre children
        if inlines_blank inlines then none else some (.paragraph inlines)
      else
        match blocks with
        | [b] => some b
        | bs => some (.document bs)
termination_by n => (sizeOf n, 2)

/-- The loop of `collect_list_items` from `convert.rs`: only direct
`li` element children contribute; an item's content is its block
children if any, else a single paragraph of its inline content. -/
def collect_li_items (options : Options) (in_pre : Bool) :
    List Node → List ListItem
  | [] => []
  | c :: rest =>
    match c with
    | ⟨nt, tag, _, _, ccs⟩ =>
      if nt = NodeType.element ∧ rust_to_lowercase tag == "li" then
        let blocks := convert_nodes options in_pre ccs
        let item : ListItem :=
          ⟨if blocks.isEmpty then
              [Block.paragraph (collect_inlines_nodes options in_pre ccs)]
            else blocks⟩
        item :: collect_li_items options in_pre rest
      else collect_li_items options in_pre rest
termination_by l => (sizeOf l, 1)

/-- Rust `convert_table` from `convert.rs` (given the `table` node's
children). -/
def convert_table (options : Options) (in_pre : Bool)
    (children : List Node) : Option Block :=
  let acc := table_scan options in_pre [] [] children
  if acc.1.isEmpty ∧ acc.2.isEmpty then none
  else if acc.1.isEmpty then
    match acc.2 with
    | [] => none
    | r :: rs => some (.table r rs)
  else some (.table acc.1 acc.2)

/-- The child loop of `convert_table`: `thead` appends header cells of
its first `tr`, `tbody` appends all its rows, and a direct `tr` becomes
the header if it holds a `th` and no header exists yet, else a data
row. -/
def table_scan (options : Options) (in_pre : Bool)
    (headers : List (List Inline)) (rows : List (List (List Inline))) :
    List Node → (List (List Inline)) × (List (List (List Inline)))
  | [] => (headers, rows)
  | c :: rest =>
    match c with
    | ⟨nt, tag, _, _, ccs⟩ =>
      if nt = NodeType.element then
        match rust_to_lowercase tag with
        | "thead" =>
          table_scan options in_pre (headers ++ thead_cells options in_pre ccs)
            rows rest
        | "tbody" =>
          table_scan options in_pre headers
            (rows ++ tbody_rows options in_pre ccs) rest
        | "tr" =>
          let rc := direct_tr_cells options in_pre ccs
          if rc.1.isEmpty then table_scan options in_pre headers rows rest
          else if rc.2 ∧ headers.isEmpty then
            table_scan options in_pre rc.1 rows rest
          else table_scan options in_pre headers (rows ++ [rc.1]) rest
        | _ => table_scan options in_pre headers rows rest
      else table_scan options in_pre headers rows rest
termination_by l => (sizeOf l, 0)

/-- The `thead` arm of `convert_table`: the cells of the first `tr`
element child (the loop breaks after the first `tr`). -/
def thead_cells (options : Options) (in_pre : Bool) :
    List Node → List (List Inline)
  | [] => []
  | c :: rest =>
    match c with
    | ⟨nt, tag, _, _, ccs⟩ =>
      if nt = NodeType.element then
        if rust_to_lowercase tag == "tr" then row_cells options in_pre ccs
        else thead_cells options in_pre rest
      else thead_cells options in_pre rest
termination_by l => (sizeOf l, 0)

/-- Cells of a header or body row: `th` or `td` element children, each
collected as inline content. -/
def row_cells (options : Options) (in_pre : Bool) :
    List Node → List (List Inline)
  | [] => []
  | c :: rest =>
    match c with
    | ⟨nt, tag, _, _, ccs⟩ =>
      if nt = NodeType.element ∧ (rust_to_lowercase tag == "th" || rust_to_lowercase tag == "td") then
        collect_inlines_nodes options in_pre ccs :: row_cells options in_pre rest
      else row_cells options in_pre rest
termination_by l => (sizeOf l, 0)

/-- The `tbody` arm of `convert_table`: every `tr` element child with a
non-empty cell list becomes a data row. -/
def tbody_rows (options : Options) (in_pre : Bool) :
    List Node → List (List (List Inline))
  | [] => []
  | c :: rest =>
    match c with
    | ⟨nt, tag, _, _, ccs⟩ =>
      if nt = NodeType.element ∧ rust_to_lowercase tag == "tr" then
        let row := row_cells options in_pre ccs
        if row.isEmpty then tbody_rows options in_pre rest
        else row :: tbody_rows options in_pre rest
      else tbody_rows options in_pre rest
termination_by l => (sizeOf l, 1)

/-- The direct-`tr` arm of `convert_table`: collect `th`/`td` cells and
whether any cell was a `th` (which marks the row as a header row). -/
def direct_tr_cells (options : Options) (in_pre : Bool) :
    List Node → (List (List Inline)) × Bool
  | [] => ([], false)
  | c :: rest =>
    match c with
    | ⟨nt, tag, _, _, ccs⟩ =>
      let acc := direct_tr_cells options in_pre rest
      if nt = NodeType.element ∧ rust_to_lowercase tag == "th" then
        (collect_inlines_nodes options in_pre ccs :: acc.1, true)
      else if nt = NodeType.element ∧ rust_to_lowercase tag == "td" then
        (collect_inlines_nodes options in_pre ccs :: acc.1, acc.2)
      else acc
termination_by l => (sizeOf l, 0)

/-- The loop of `collect_inlines` from `convert.rs`. -/
def collect_inlines_nodes (options : Options) (in_pre : Bool) :
    List Node → List Inline
  | [] => []
  | child :: rest =>
    match child.node_type with
    | .text =>
      let text := (child.node_value).getD ""
      if in_pre then
        Inline.text text :: collect_inlines_nodes options in_pre rest
      else
        let collapsed := collapse_whitespace text
        if collapsed.isEmpty then collect_inlines_nodes options in_pre rest
        else Inline.text (escape_markdown collapsed) ::
          collect_inlines_nodes options in_pre rest
    | .element =>
      match convert_inline_element options in_pre child with
      | some i => i :: collect_inlines_nodes options in_pre rest
      | none => collect_inlines_nodes options in_pre rest
    | _ => collect_inlines_nodes options in_pre rest
termination_by l => (sizeOf l, 1)

/-- Rust `convert_inline_element` from `convert.rs`. -/
def convert_inline_element (options : Options) (in_pre : Bool) :
    Node → Option Inline
  | n@(.mk _ rawTag _ _ children) =>
    let tag := rust_to_lowercase rawTag
    match tag with
    | "strong" | "b" =>
      let inner := collect_inlines_nodes options in_pre children
      if inlines_blank inner then none else some (.strong inner)
    | "em" | "i" =>
      let inner := collect_inlines_nodes options in_pre children
      if inlines_blank inner then none else some (.emphasis inner)
    | "code" =>
      let text := n.text_content
      if text.isEmpty then none else some (.code text)
    | "a" =>
      let href := (n.attr "href").getD ""
      let title := n.attr "title"
      let content := collect_inlines_nodes options in_pre children
      if href.isEmpty && title.isNone then
        match content with
        | [single] => some single
        | _ => none
      else some (.link content href title)
    | "img" =>
      let src := (n.attr "src").getD ""
      if src.isEmpty then none
      else some (.image ((n.attr "alt").getD "") src (n.attr "title"))
    | "br" => some .lineBreak
    | "span" | "small" | "mark" | "abbr" | "cite" | "q" | "sub" | "sup"
    | "time" =>
      let inner := collect_inlines_nodes options in_pre children
      match inner with
      | [single] => some single
      | [] => none
      | _ => some (.text (inlines_to_text inner))
    | "p" | "div" | "h1" | "h2" | "h3" | "h4" | "h5" | "h6" =>
      let text := n.text_content
      if (rust_trim text).isEmpty then none
      else some (.text (escape_markdown (collapse_whitespace text)))
    | _ =>
      let inner := collect_inlines_nodes options in_pre children
      match inner with
      | [single] => some single
      | [] => none
      | _ => some (.text (inlines_to_text inner))
termination_by n => (sizeOf n, 0)
end

/-- Rust `convert` from `convert.rs`: an element root is converted directly
and flattened; otherwise (or when element conversion yields nothing)
the children become a `Document`. -/
def convert (node : Node) (options : Options) : Block :=
  if node.is_element then
    match convert_element options false node with
    | some block => flatten_document block
    | none => Block.document (convert_nodes options false node.children)
  else Block.document (convert_nodes options false node.children)

/-! ## Streaming converter (`turndown-napi/src/lol_streaming.rs`) -/

/-- Rust `ElementAttrs` from `lol_streaming.rs` (the `class` field is named
`class_attr` because `class` is a Lean keyword). -/
structure ElementAttrs where
  href : Option String
  src : Option String
  alt : Option String
  title : Option String
  start : Option Nat
  class_attr : Option String
deriving Repr

/-- Rust `ElementAttrs::default`. -/
def ElementAttrs.default : ElementAttrs := ⟨none, none, none, none, none, none⟩

/-- Rust `ElementContext` from `lol_streaming.rs`. -/
structure ElementContext where
  tag : String
  inlines : List Inline
  blocks : List Block
  list_items : List ListItem
  table_headers : List (List Inline)
  table_rows : List (List (List Inline))
  attrs : ElementAttrs
deriving Repr

/-- Rust `ElementContext::new`. -/
def ElementContext.new (tag : String) : ElementContext :=
  ⟨tag, [], [], [], [], [], ElementAttrs.default⟩

/-- Rust `ParserState` from `lol_streaming.rs`. The `Vec` stack is modelled
with its top (the `Vec`'s end) at the head of the list. -/
structure ParserState where
  stack : List ElementContext
  options : Options
deriving Repr

/-- Rust `ParserState::new`: the stack is seeded with a synthetic `$root`
context. -/
def ParserState.new (options : Options) : ParserState :=
  ⟨[ElementContext.new "$root"], options⟩

/-- Rust `ParserState::push_element`. -/
def ParserState.push_element (s : ParserState) (tag : String)
    (attrs : ElementAttrs) : ParserState :=
  { s with stack := { ElementContext.new tag with attrs := attrs } :: s.stack }

/-- Rust `ParserState::pop_element`: pops only while more than one context
remains, so the root context is never removed. -/
def ParserState.pop_element (s : ParserState) :
    Option (ElementContext × ParserState) :=
  match s.stack with
  | c :: r :: rest => some (c, { s with stack := r :: rest })
  | _ => none

/-- Rust `ParserState::current_mut` composed with a mutation. The `[]` arm
corresponds to the `expect("stack should never be empty")` panic and is
unreachable while the stack stays non-empty. -/
def ParserState.modify_current (s : ParserState)
    (f : ElementContext → ElementContext) : ParserState :=
  match s.stack with
  | c :: rest => { s with stack := f c :: rest }
  | [] => s

/-- Rust `ParserState::add_text`. -/
def ParserState.add_text (s : ParserState) (text : String) : ParserState :=
  if text.isEmpty then s
  else
    let in_pre := s.stack.any (fun c => c.tag == "pre")
    let in_code := s.stack.any (fun c => c.tag == "code")
    if in_pre || in_code then
      s.modify_current (fun c => { c with inlines := c.inlines ++ [Inline.text text] })
    else
      let collapsed := collapse_whitespace text
      if collapsed.isEmpty then s
      else
        s.modify_current (fun c =>
          { c with inlines := c.inlines ++ [Inline.text (escape_markdown collapsed)] })

/-- Rust `ParserState::add_inline`. -/
def ParserState.add_inline (s : ParserState) (inline : Inline) : ParserState :=
  s.modify_current (fun c => { c with inlines := c.inlines ++ [inline] })

/-- Rust `ParserState::add_block`: blank blocks are dropped. -/
def ParserState.add_block (s : ParserState) (block : Block) : ParserState :=
  if !block.is_blank then
    s.modify_current (fun c => { c with blocks := c.blocks ++ [block] })
  else s

/-- Rust `ParserState::finalize` from `lol_streaming.rs`. The `[]` arm
corresponds to the `expect("root context")` panic. -/
def ParserState.finalize (s : ParserState) : Block :=
  match s.stack with
  | [] => Block.document []
  | root :: _ =>
    if root.blocks.isEmpty then
      if inlines_blank root.inlines then Block.document []
      else Block.paragraph root.inlines
    else
      match root.blocks, root.inlines.isEmpty with
      | [b], true => b
      | bs, _ =>
        Block.document
          (if !inlines_blank root.inlines then bs ++ [Block.paragraph root.inlines]
           else bs)

/-- Rust `FinalizedElement` from `lol_streaming.rs`. -/
inductive FinalizedElement where
  | block (b : Block)
  | inline (i : Inline)
  | none
deriving Repr

/-- Rust `finalize_element` from `lol_streaming.rs`: the per-tag close
logic. -/
def finalize_element (ctx : ElementContext) (options : Options) :
    FinalizedElement :=
  match ctx.tag with
  | "p" =>
    if inlines_blank ctx.inlines then .none
    else .block (.paragraph ctx.inlines)
  | "h1" | "h2" | "h3" | "h4" | "h5" | "h6" =>
    let level := ((ctx.tag.data.get? 1).bind char_digit).getD 1
    if inlines_blank ctx.inlines then .none
    else .block (.heading level ctx.inlines)
  | "blockquote" =>
    let blocks :=
      if ctx.blocks.isEmpty && !inlines_blank ctx.inlines then
        [Block.paragraph ctx.inlines]
      else ctx.blocks
    if blocks.isEmpty then .none else .block (.blockQuote blocks)
  | "ul" =>
    if ctx.list_items.isEmpty then .none
    else .block (.list false 1 ctx.list_items)
  | "ol" =>
    if ctx.list_items.isEmpty then .none
    else .block (.list true (ctx.attrs.start.getD 1) ctx.list_items)
  | "li" =>
    let content :=
      if ctx.blocks.isEmpty then [Block.paragraph ctx.inlines] else ctx.blocks
    .block (.document content)
  | "pre" =>
    let code_text := String.join (ctx.inlines.map (fun i =>
      match i with
      | .text t => t
      | .code c => c
      | _ => ""))
    let language := ctx.attrs.class_attr.bind extract_language
    let fenced := decide (options.code_block_style = CodeBlockStyle.fenced)
    .block (.codeBlock language code_text fenced)
  | "code" =>
    let text := String.join (ctx.inlines.map (fun i =>
      match i with
      | .text t => t
      | _ => ""))
    if text.isEmpty then .none else .inline (.code text)
  | "strong" | "b" =>
    if inlines_blank ctx.inlines then .none else .inline (.strong ctx.inlines)
  | "em" | "i" =>
    if inlines_blank ctx.inlines then .none else .inline (.emphasis ctx.inlines)
  | "a" =>
    let href := ctx.attrs.href.getD ""
    if href.isEmpty && ctx.attrs.title.isNone then
      match ctx.inlines with
      | [single] => .inline single
      | _ => .none
    else .inline (.link ctx.inlines href ctx.attrs.title)
  | "table" =>
    if ctx.table_headers.isEmpty && ctx.table_rows.isEmpty then .none
    else if ctx.table_headers.isEmpty then
      match ctx.table_rows with
      | [] => .none
      | r :: rs => .block (.table r rs)
    else .block (.table ctx.table_headers ctx.table_rows)
  | "div" | "section" | "article" | "main" | "aside" | "header" | "footer"
  | "nav" | "figure" | "figcaption" | "address" | "form" | "fieldset"
  | "thead" | "tbody" | "tr" | "td" | "th" =>
    if !ctx.blocks.isEmpty then
      match ctx.blocks with
      | [b] => .block b
      | bs => .block (.document bs)
    else if !inlines_blank ctx.inlines then .block (.paragraph ctx.inlines)
    else .none
  | "span" | "small" | "mark" | "abbr" | "cite" | "q" | "sub" | "sup"
  | "time" =>
    match ctx.inlines with
    | [single] => .inline single
    | [] => .none
    | _ => .inline (.text (inlines_to_text ctx.inlines))
  | _ =>
    if !ctx.blocks.isEmpty then
      match ctx.blocks with
      | [b] => .block b
      | bs => .block (.document bs)
    else if !inlines_blank ctx.inlines then .block (.paragraph ctx.inlines)
    else .none

/-- Modelled from the spec: one structural event delivered by the
lol_html rewriter (an external crate): an open tag with its raw
attribute map, a text chunk, or the close of the most recent open
element. -/
inductive HtmlEvent where
  | open_tag (tag : String) (attrs : List (String × String))
  | text_chunk (s : String)
  | close_tag
deriving Repr

/-- Modelled from the spec: lol_html's `get_attribute` (attribute names
are matched case-insensitively). -/
def get_attribute (attrs : List (String × String)) (name : String) :
    Option String :=
  (attrs.find? (fun p => rust_to_lowercase p.1 == rust_to_lowercase name)).map (fun p => p.2)

/-- The attribute-collection block of the element handler in
`html_to_ast`: the six recognized attributes are captured, `start`
through `str::parse::<u32>().ok()`. -/
def collect_attrs (attrs : List (String × String)) : ElementAttrs :=
  { href := get_attribute attrs "href"
    src := get_attribute attrs "src"
    alt := get_attribute attrs "alt"
    title := get_attribute attrs "title"
    start := (get_attribute attrs "start").bind rust_parse_u32
    class_attr := get_attribute attrs "class" }

/-- The driver state of the event loop: the shared `ParserState` plus,
for every open element, whether its handler pushed a context (`true`)
or the element was removed / lies inside a removed subtree (`false`).
The boolean stack is bookkeeping for lol_html's dispatch (modelled from
the spec: `el.remove()` suppresses all events of the element's
subtree); `br`/`hr`/`img` are handled immediately and receive no close
event. -/
def process_event (st : ParserState × List Bool) (ev : HtmlEvent) :
    ParserState × List Bool :=
  match ev with
  | .open_tag rawTag rawAttrs =>
    let tag := rust_to_lowercase rawTag
    let inside_removed := st.2.any (fun b => !b)
    if inside_removed then
      if tag == "br" || tag == "hr" || tag == "img" then st
      else (st.1, false :: st.2)
    else if tag == "script" || tag == "style" || tag == "noscript" ||
        tag == "template" then
      (st.1, false :: st.2)
    else
      let attrs := collect_attrs rawAttrs
      if tag == "br" then (st.1.add_inline .lineBreak, st.2)
      else if tag == "hr" then (st.1.add_block .thematicBreak, st.2)
      else if tag == "img" then
        match attrs.src with
        | some src =>
          if !src.isEmpty then
            (st.1.add_inline (.image (attrs.alt.getD "") src attrs.title), st.2)
          else st
        | none => st
      else (st.1.push_element tag attrs, true :: st.2)
  | .text_chunk content =>
    let inside_removed := st.2.any (fun b => !b)
    if inside_removed then st
    else if !content.isEmpty then (st.1.add_text content, st.2)
    else st
  | .close_tag =>
    match st.2 with
    | [] => st
    | pushed :: bools =>
      if pushed then
        match st.1.pop_element with
        | some (ctx, s2) =>
          match finalize_element ctx s2.options with
          | .block b => (s2.add_block b, bools)
          | .inline i => (s2.add_inline i, bools)
          | .none => (s2, bools)
        | none => (st.1, bools)
      else (st.1, bools)

/-- Rust `html_to_ast` from `lol_streaming.rs`, driven by the event sequence
the lol_html rewriter delivers for the input (the raw-byte parsing
itself is the external crate's job): process every event against the
shared `ParserState`, then finalize. -/
def html_to_ast (events : List HtmlEvent) (options : Options) : Block :=
  (events.foldl process_event (ParserState.new options, [])).1.finalize

/-! ## Rule engine (`turndown/src/rules/mod.rs`, `rule.rs`)

`TurndownOptions` (`turndown/src/service.rs`) has exactly the fields and
defaults of `Options` and is modelled by that same structure. -/

/-- Modelled from the spec: the element view a filter predicate can
inspect (`scraper::ElementRef` is an external crate type); `name` is
the tag name, `html` the raw markup used by `keep_replacement`. -/
structure ElementView where
  name : String
  html : String

/-- Rust `Filter` from `turndown/src/rules/rule.rs`. -/
inductive Filter where
  | tagName (t : String)
  | tagNames (ts : List String)
  | predicate (f : String → ElementView → Options → Bool)

/-- Rust `Filter::matches` from `rule.rs`: the tag is lowercased, then
compared to the stored tag, the stored tag set, or fed to the
predicate. -/
def Filter.matches (f : Filter) (tag : String) (element : ElementView)
    (options : Options) : Bool :=
  let tag_lower := rust_to_lowercase tag
  match f with
  | .tagName t => tag_lower == t
  | .tagNames ts => ts.contains tag_lower
  | .predicate p => p tag_lower element options

/-- Rust `Rule` from `rule.rs`: a filter plus a replacement function. -/
structure Rule where
  filter : Filter
  replacement : ElementView → String → Options → String

/-- Rust `Rules` from `turndown/src/rules/mod.rs`. The `IndexMap` of custom
rules is modelled by an association list in insertion order, which is
exactly the order `values()` iterates. -/
structure Rules where
  custom_rules : List (String × Rule)
  keep_rules : List Filter
  remove_rules : List Filter
  commonmark_rules : List Rule

/-- Rust `Rules::for_element`: the first matching custom rule, else the
first matching CommonMark rule. -/
def Rules.for_element (rules : Rules) (element : ElementView)
    (options : Options) : Option Rule :=
  let tag := element.name
  match (rules.custom_rules.map (fun p => p.2)).find?
      (fun r => r.filter.matches tag element options) with
  | some r => some r
  | none =>
    rules.commonmark_rules.find? (fun r => r.filter.matches tag element options)

/-- Rust `Rules::should_keep`: `false` as soon as a custom or CommonMark
rule matches, else whether any keep filter matches. -/
def Rules.should_keep (rules : Rules) (element : ElementView)
    (options : Options) : Bool :=
  let tag := element.name
  if rules.custom_rules.any (fun p => p.2.filter.matches tag element options) then
    false
  else if rules.commonmark_rules.any
      (fun r => r.filter.matches tag element options) then false
  else rules.keep_rules.any (fun f => f.matches tag element options)

/-- Rust `Rules::should_remove`: `false` when the element is kept or when a
custom or CommonMark rule matches, else whether any remove filter
matches. -/
def Rules.should_remove (rules : Rules) (element : ElementView)
    (options : Options) : Bool :=
  let tag := element.name
  if rules.should_keep element options then false
  else if rules.custom_rules.any
      (fun p => p.2.filter.matches tag element options) then false
  else if rules.commonmark_rules.any
      (fun r => r.filter.matches tag element options) then false
  else rules.remove_rules.any (fun f => f.matches tag element options)

/-- Whether any custom or built-in rule's filter matches the element
(the condition under which `for_element` returns a rule). -/
def Rules.rule_matches (rules : Rules) (element : ElementView)
    (options : Options) : Bool :=
  rules.custom_rules.any
      (fun p => p.2.filter.matches element.name element options) ||
    rules.commonmark_rules.any
      (fun r => r.filter.matches element.name element options)

/-- One call against a `ParserState`: the five mutating operations of
`lol_streaming.rs` (`push_element`, `pop_element`, `add_text`,
`add_inline`, `add_block`). -/
inductive ParserOp where
  | push_el (tag : String) (attrs : ElementAttrs)
  | pop_el
  | add_text_op (s : String)
  | add_inline_op (i : Inline)
  | add_block_op (b : Block)

/-- Apply one `ParserOp` to a `ParserState` (for `pop_element` only the
state effect matters here; the popped context is discarded). -/
def apply_op (s : ParserState) : ParserOp → ParserState
  | .push_el tag attrs => s.push_element tag attrs
  | .pop_el =>
    match s.pop_element with
    | some p => p.2
    | none => s
  | .add_text_op t => s.add_text t
  | .add_inline_op i => s.add_inline i
  | .add_block_op b => s.add_block b

/-! ## Supporting lemmas -/

theorem space_is_whitespace : rust_is_whitespace ' ' = true := by decide

theorem collapse_ws_aux_idem (l : List Char) :
    ∀ b, collapse_ws_aux b (collapse_ws_aux b l) = collapse_ws_aux b l := by
  induction l with
  | nil => intro b; simp [collapse_ws_aux]
  | cons c cs ih =>
    intro b
    by_cases hc : rust_is_whitespace c
    · cases b with
      | true => simpa [collapse_ws_aux, hc] using ih true
      | false => simp [collapse_ws_aux, hc, space_is_whitespace, ih true]
    · simp [collapse_ws_aux, hc, ih false]

theorem collapse_ws_aux_head (l : List Char) :
    ∀ c, (collapse_ws_aux true l).head? = some c → rust_is_whitespace c = false := by
  induction l with
  | nil => intro c h; simp [collapse_ws_aux] at h
  | cons d ds ih =>
    intro c h
    by_cases hd : rust_is_whitespace d
    · exact ih c (by simpa [collapse_ws_aux, hd] using h)
    · simp [collapse_ws_aux, hd] at h
      subst h; exact eq_false_of_ne_true hd

theorem collapse_ws_aux_chain (l : List Char) :
    ∀ b, List.Chain'
      (fun a c => rust_is_whitespace a = false ∨ rust_is_whitespace c = false)
      (collapse_ws_aux b l) := by
  induction l with
  | nil => intro b; simp [collapse_ws_aux]
  | cons c cs ih =>
    intro b
    by_cases hc : rust_is_whitespace c
    · cases b with
      | true => simpa [collapse_ws_aux, hc] using ih true
      | false =>
        have heq : collapse_ws_aux false (c :: cs) = ' ' :: collapse_ws_aux true cs := by
          simp [collapse_ws_aux, hc]
        rw [heq]
        refine List.chain'_cons'.mpr ⟨?_, ih true⟩
        intro y hy
        exact Or.inr (collapse_ws_aux_head cs y hy)
    · have heq : collapse_ws_aux b (c :: cs) = c :: collapse_ws_aux false cs := by
        simp [collapse_ws_aux, hc]
      rw [heq]
      refine List.chain'_cons'.mpr ⟨?_, ih false⟩
      intro y _
      exact Or.inl (eq_false_of_ne_true hc)

theorem collapse_ws_aux_spaces (l : List Char) :
    ∀ b, ((collapse_ws_aux b l).all
      (fun c => !rust_is_whitespace c || c == ' ')) = true := by
  induction l with
  | nil => intro b; simp [collapse_ws_aux]
  | cons c cs ih =>
    intro b
    by_cases hc : rust_is_whitespace c
    · cases b with
      | true => simpa [collapse_ws_aux, hc] using ih true
      | false => simp [collapse_ws_aux, hc, ih true]
    · simp [collapse_ws_aux, hc, ih false]

/-! ## Claim theorems -/

/-- C10: `collapse_whitespace` is idempotent; moreover every whitespace
character of its output is a single ASCII space and no two consecutive
output characters are both whitespace. -/
theorem collapse_whitespace_idempotent (s : String) :
    collapse_whitespace (collapse_whitespace s) = collapse_whitespace s ∧
    ((collapse_whitespace s).data.all
      (fun c => !rust_is_whitespace c || c == ' ')) = true ∧
    List.Chain'
      (fun a c => rust_is_whitespace a = false ∨ rust_is_whitespace c = false)
      (collapse_whitespace s).data := by
  refine ⟨?_, ?_, ?_⟩
  · exact congrArg String.mk (collapse_ws_aux_idem s.data false)
  · exact collapse_ws_aux_spaces s.data false
  · exact collapse_ws_aux_chain s.data false

/-- C9: starting from `ParserState::new`, the context stack stays
non-empty under every sequence of `push_element`, `pop_element`,
`add_text`, `add_inline` and `add_block` calls, so `current_mut`'s
`expect` cannot fail before `finalize`. -/
theorem parser_stack_nonempty (ops : List ParserOp) (o : Options) :
    1 ≤ ((ops.foldl apply_op (ParserState.new o)).stack).length := by
  have step : ∀ (s : ParserState) (op : ParserOp),
      1 ≤ s.stack.length → 1 ≤ (apply_op s op).stack.length := by
    intro s op hs
    cases op with
    | push_el tag attrs => simp [apply_op, ParserState.push_element]
    | pop_el =>
      simp only [apply_op, ParserState.pop_element]
      match hst : s.stack with
      | [] => simpa [hst] using hs
      | [c] => simpa [hst] using hs
      | c :: r :: rest => simp
    | add_text_op t =>
      simp only [apply_op, ParserState.add_text]
      split
      · exact hs
      · split
        · simp only [ParserState.modify_current]
          match hst : s.stack with
          | [] => simpa [hst] using hs
          | c :: rest => simp
        · split
          · exact hs
          · simp only [ParserState.modify_current]
            match hst : s.stack with
            | [] => simpa [hst] using hs
            | c :: rest => simp
    | add_inline_op i =>
      simp only [apply_op, ParserState.add_inline, ParserState.modify_current]
      match hst : s.stack with
      | [] => simpa [hst] using hs
      | c :: rest => simp
    | add_block_op b =>
      simp only [apply_op, ParserState.add_block]
      split
      · simp only [ParserState.modify_current]
        match hst : s.stack with
        | [] => simpa [hst] using hs
        | c :: rest => simp
      · exact hs
  have main : ∀ (l : List ParserOp) (s : ParserState),
      1 ≤ s.stack.length → 1 ≤ ((l.foldl apply_op s).stack).length := by
    intro l
    induction l with
    | nil => intro s hs; simpa using hs
    | cons op rest ih => intro s hs; exact ih (apply_op s op) (step s op hs)
  exact main ops (ParserState.new o) (by simp [ParserState.new])

/-- C2 counterexample: the flatten law fails for a blank block whose
direct serialization is not empty. `CodeBlock { code: " ", fenced: false }`
is blank (its code trims to empty), so `serialize_blocks` skips it inside
the `Document` wrapper, while serializing it directly emits the indented
line `"     "` (four indent spaces plus the space of the code), which
`collapse_and_trim` does not remove. -/
theorem flatten_law_counterexample :
    serialize (Block.document [Block.codeBlock none " " false]) Options.default ≠
      serialize (Block.codeBlock none " " false) Options.default ∧
    serialize (Block.document [Block.codeBlock none " " false]) Options.default =
      some "" ∧
    serialize (Block.codeBlock none " " false) Options.default = some "     " := by
  have h1 : serialize (Block.document [Block.codeBlock none " " false])
      Options.default = some "" := by
    simp +decide [serialize, serialize_block, serialize_blocks, Block.is_blank,
      collapse_and_trim]
  have h2 : serialize (Block.codeBlock none " " false) Options.default =
      some "     " := by
    simp +decide [serialize, serialize_block, serialize_code_block,
      collapse_and_trim]
  refine ⟨?_, h1, h2⟩
  rw [h1, h2]
  decide

/-- C2 amended: `serialize(Document([x]), o) = serialize(x, o)` for every
non-`Document` block `x` that is not blank (a blank `x` is skipped by
`serialize_blocks` inside the wrapper but may still render whitespace
directly). -/
theorem flatten_law_nonblank (x : Block) (o : Options)
    (hnd : ∀ bs, x ≠ Block.document bs) (hb : x.is_blank = false) :
    serialize (Block.document [x]) o = serialize x o := by
  unfold serialize
  have h1 : serialize_block o 0 (Block.document [x]) = serialize_blocks o 0 [x] := by
    simp [serialize_block]
  have h2 : serialize_blocks o 0 [x] = serialize_block o 0 x := by
    rw [serialize_blocks]
    rw [if_neg (by simp [hb])]
    cases hsb : serialize_block o 0 x with
    | none => simp [serialize_blocks]
    | some s => simp [serialize_blocks, String.append_empty]
  rw [h1, h2]

/-- C2 witness: the amended flatten law at a concrete non-blank
paragraph. -/
theorem flatten_law_nonblank_witness :
    serialize (Block.document [Block.paragraph [Inline.text "Hello"]])
        Options.default =
      serialize (Block.paragraph [Inline.text "Hello"]) Options.default :=
  flatten_law_nonblank (Block.paragraph [Inline.text "Hello"]) Options.default
    (fun _ h => Block.noConfusion h) (by decide)

/-- C3 counterexample: for `Inline::Code("a``b")` the claim demands a
delimiter of `(max run of backticks) + 1 = 3` backticks, i.e. the
output `"```a``b```"`, but `serialize_inline` picks a fixed double
backtick whenever the content contains any backtick and emits
`"``a``b``"`. -/
theorem inline_code_backtick_run_counterexample :
    serialize_inline Options.default (Inline.code "a``b") = "``a``b``" ∧
    serialize_inline Options.default (Inline.code "a``b") ≠ "```a``b```" := by
  constructor
  · decide
  · decide

/-- C3 amended: for empty content `serialize_inline` emits nothing; for
non-empty content the delimiter on each side is two backticks when the
content contains any backtick and one backtick otherwise, and exactly
one padding space is added on both sides if and only if the content
starts or ends with a backtick (a leading or trailing space does not
trigger padding). -/
theorem inline_code_serialization (c : String) (o : Options) :
    (c.isEmpty = true → serialize_inline o (Inline.code c) = "") ∧
    (c.isEmpty = false →
      serialize_inline o (Inline.code c) =
        (if c.data.any (fun d => d == backtick) then "``" else "`") ++
          (if starts_with_char c backtick || ends_with_char c backtick then " "
           else "") ++ c ++
          (if starts_with_char c backtick || ends_with_char c backtick then " "
           else "") ++
          (if c.data.any (fun d => d == backtick) then "``" else "`")) := by
  constructor
  · intro h; simp [serialize_inline, h]
  · intro h
    simp only [serialize_inline, h, Bool.false_eq_true, if_false]

/-- C3 witness: the amended inline-code rule at content ending in a
backtick. -/
theorem inline_code_serialization_witness :
    serialize_inline Options.default (Inline.code "x`") =
      (if ("x`".data.any (fun d => d == backtick)) then "``" else "`") ++
        (if starts_with_char "x`" backtick || ends_with_char "x`" backtick
         then " " else "") ++ "x`" ++
        (if starts_with_char "x`" backtick || ends_with_char "x`" backtick
         then " " else "") ++
        (if ("x`".data.any (fun d => d == backtick)) then "``" else "`") :=
  (inline_code_serialization "x`" Options.default).2 (by decide)

/-- C4 counterexample: the Setext underline length is the rendered
text's UTF-8 byte count, not its character count. The heading text
`"é"` renders as one character but two bytes, so the underline is
`"=="`, where the claim demands `"="`. -/
theorem setext_underline_byte_counterexample :
    serialize (Block.heading 1 [Inline.text "é"]) Options.default =
      some "é\n==" ∧
    ("é".data.length = 1 ∧ "==".data.length = 2) ∧
    ("é\n==" : String) ≠ "é\n=" := by
  refine ⟨?_, by decide, by decide⟩
  simp +decide [serialize, serialize_block, serialize_heading, serialize_inlines,
    serialize_inline, collapse_and_trim, utf8_len, char_repeat]

/-- C4 amended: for a heading with non-blank rendered content, Setext
style at level ≤ 2 emits the text line, then a line of `=` (level 1) or
`-` (other levels) repeated exactly the rendered text's UTF-8 byte
count (equal to the character count for ASCII text), then the block
terminator; any other style/level combination emits `level` `#`
characters, one space, the text and the block terminator. -/
theorem serialize_heading_characterization (level : Nat) (content : List Inline)
    (o : Options) (d : Nat)
    (hnb : (rust_trim (serialize_inlines o content)).isEmpty = false) :
    (o.heading_style = HeadingStyle.setext ∧ level ≤ 2 →
      serialize_block o d (Block.heading level content) =
        some (serialize_inlines o content ++ "\n" ++
          char_repeat (if level == 1 then '=' else '-')
            (utf8_len (serialize_inlines o content)) ++ "\n\n")) ∧
    (¬(o.heading_style = HeadingStyle.setext ∧ level ≤ 2) →
      serialize_block o d (Block.heading level content) =
        some (char_repeat '#' level ++ " " ++ serialize_inlines o content ++
          "\n\n")) := by
  constructor
  · intro h
    simp only [serialize_block, serialize_heading, hnb, Bool.false_eq_true,
      if_false, if_pos h]
  · intro h
    simp only [serialize_block, serialize_heading, hnb, Bool.false_eq_true,
      if_false, if_neg h, atx_heading]

/-- C4 witness: the amended heading rule at a concrete Setext level-1
heading. -/
theorem serialize_heading_characterization_witness :
    serialize_block Options.default 0 (Block.heading 1 [Inline.text "Title"]) =
      some (serialize_inlines Options.default [Inline.text "Title"] ++ "\n" ++
        char_repeat (if 1 == 1 then '=' else '-')
          (utf8_len (serialize_inlines Options.default [Inline.text "Title"])) ++
        "\n\n") :=
  (serialize_heading_characterization 1 [Inline.text "Title"] Options.default 0
    (by decide)).1 ⟨rfl, by decide⟩

/-- Rust `flatten_document` never returns a `Document` with exactly one
child. -/
theorem flatten_document_ne_singleton (b : Block) :
    ∀ c, flatten_document b ≠ Block.document [c] := by
  induction b using flatten_document.induct with
  | case1 x ih =>
    intro c
    rw [show flatten_document (Block.document [x]) = flatten_document x from by
      simp [flatten_document]]
    exact ih c
  | case2 x hne =>
    intro c hc
    have hx : flatten_document x = x := by
      rw [flatten_document.eq_def]
      split
      · rename_i b; exact absurd rfl (fun h => hne b h)
      · rfl
    rw [hx] at hc
    exact hne c hc

/-- C5 counterexample: `convert` flattens only when the root node is an
element whose conversion succeeds. A `Document`-typed root with a
single `p` child takes the `convert_children` path and returns a
`Block::Document` containing exactly one child, unflattened. -/
theorem convert_root_document_counterexample :
    convert
      (Node.mk NodeType.document "" none []
        [Node.mk NodeType.element "p" none []
          [Node.mk NodeType.text "" (some "x") [] []]])
      Options.default =
      Block.document [Block.paragraph [Inline.text "x"]] := by
  have h1 : rust_to_lowercase "p" = "p" := by decide
  have h2 : escape_markdown (collapse_whitespace "x") = "x" := by decide
  simp +decide [convert, convert_element, convert_nodes, collect_inlines_nodes,
    convert_inline_element, flatten_document, h1, h2, Node.is_element,
    Node.node_type, Node.children, Node.node_value, Node.tag_name,
    inlines_blank, Inline.is_blank]

/-- C5 amended: whenever the root node is an element and
`convert_element` succeeds on it, the result of `convert` is never a
`Document` with exactly one child (that is the path guarded by
`flatten_document`); a non-element root returns
`Document(convert_children(..))` without flattening. -/
theorem convert_element_root_no_singleton_document (node : Node) (o : Options)
    (b : Block) (he : node.is_element = true)
    (hc : convert_element o false node = some b) :
    ∀ c, convert node o ≠ Block.document [c] := by
  intro c
  unfold convert
  rw [if_pos he, hc]
  exact flatten_document_ne_singleton b c

/-- C5 witness: the amended flattening guarantee at a concrete `p`
element root. -/
theorem convert_element_root_no_singleton_document_witness :
    convert
      (Node.mk NodeType.element "p" none []
        [Node.mk NodeType.text "" (some "x") [] []])
      Options.default ≠
      Block.document [Block.paragraph [Inline.text "x"]] :=
  convert_element_root_no_singleton_document
    (Node.mk NodeType.element "p" none []
      [Node.mk NodeType.text "" (some "x") [] []])
    Options.default (Block.paragraph [Inline.text "x"]) (by decide)
    (by
      have h1 : rust_to_lowercase "p" = "p" := by decide
      have h2 : escape_markdown (collapse_whitespace "x") = "x" := by decide
      simp +decide [convert_element, collect_inlines_nodes,
        convert_inline_element, h1, h2, Node.node_type, Node.node_value,
        inlines_blank, Inline.is_blank])
    (Block.paragraph [Inline.text "x"])

theorem table_row_update_get? (ws : List Nat) (row : List (List Inline))
    (i : Nat) (w : Nat) (hw : ws.get? i = some w) :
    (table_row_update ws row).get? i =
      some (match row.get? i with
        | some cell => max w (inlines_text_len cell)
        | none => w) := by
  simp only [table_row_update, List.get?_map, List.enum_get?, hw]
  rfl

theorem table_fold_length (rows : List (List (List Inline))) :
    ∀ ws : List Nat, (rows.foldl table_row_update ws).length = ws.length := by
  induction rows with
  | nil => intro ws; rfl
  | cons r rs ih =>
    intro ws
    simp only [List.foldl_cons, ih]
    simp [table_row_update, List.enum_length]

theorem table_fold_ge (rows : List (List (List Inline))) :
    ∀ (ws : List Nat) (i w : Nat), ws.get? i = some w →
      ∃ w2, (rows.foldl table_row_update ws).get? i = some w2 ∧ w ≤ w2 := by
  induction rows with
  | nil => intro ws i w hw; exact ⟨w, hw, Nat.le_refl w⟩
  | cons r rs ih =>
    intro ws i w hw
    have h1 := table_row_update_get? ws r i w hw
    cases hr : r.get? i with
    | some cell =>
      simp only [hr] at h1
      obtain ⟨w2, h2, hle⟩ := ih (table_row_update ws r) i _ h1
      exact ⟨w2, by simpa using h2, Nat.le_trans (Nat.le_max_left _ _) hle⟩
    | none =>
      simp only [hr] at h1
      obtain ⟨w2, h2, hle⟩ := ih (table_row_update ws r) i _ h1
      exact ⟨w2, by simpa using h2, hle⟩

theorem table_fold_cell (rows : List (List (List Inline))) :
    ∀ (ws : List Nat) (i : Nat) (row : List (List Inline))
      (cell : List Inline), row ∈ rows → row.get? i = some cell →
      (∃ w0, ws.get? i = some w0) →
      ∃ w2, (rows.foldl table_row_update ws).get? i = some w2 ∧
        inlines_text_len cell ≤ w2 := by
  induction rows with
  | nil => intro _ _ _ _ h; cases h
  | cons r rs ih =>
    intro ws i row cell hmem hcell hex
    obtain ⟨w0, hw0⟩ := hex
    rcases List.mem_cons.mp hmem with heq | hmem2
    · subst heq
      have h1 := table_row_update_get? ws row i w0 hw0
      simp only [hcell] at h1
      obtain ⟨w2, h2, hle⟩ := table_fold_ge rs _ i _ h1
      exact ⟨w2, by simpa using h2, Nat.le_trans (Nat.le_max_right _ _) hle⟩
    · have h1 := table_row_update_get? ws r i w0 hw0
      obtain ⟨w2, h2, hle⟩ := ih (table_row_update ws r) i row cell hmem2 hcell ⟨_, h1⟩
      exact ⟨w2, by simpa using h2, hle⟩

/-- C6: for a table with non-empty headers, the column width that
`serialize_table` uses for every column `i` below the header count is
at least `max(3, text length of header i, text length of every row's
cell i)`, with lengths measured by the document model's `text_len`. -/
theorem table_width_law (headers : List (List Inline))
    (rows : List (List (List Inline))) (i : Nat) (h : i < headers.length) :
    ∃ w, (table_widths headers rows).get? i = some w ∧
      3 ≤ w ∧
      (∀ hcell, headers.get? i = some hcell → inlines_text_len hcell ≤ w) ∧
      (∀ row ∈ rows, ∀ cell, row.get? i = some cell →
        inlines_text_len cell ≤ w) := by
  obtain ⟨hcell0, hh⟩ : ∃ hc, headers.get? i = some hc := by
    cases hg : headers.get? i with
    | none => exact absurd (List.get?_eq_none.mp hg) (by omega)
    | some v => exact ⟨v, rfl⟩
  have hbase : (headers.map (fun g => inlines_text_len g)).get? i =
      some (inlines_text_len hcell0) := by
    simp only [List.get?_map]
    exact congrArg (Option.map fun g => inlines_text_len g) hh
  obtain ⟨w1, hw1, hle1⟩ := table_fold_ge rows _ i _ hbase
  refine ⟨max w1 3, ?_, Nat.le_max_right _ _, ?_, ?_⟩
  · simp only [table_widths, List.get?_map]
    rw [show (headers.map fun g => inlines_text_len g) =
        (headers.map fun h => inlines_text_len h) from rfl] at hw1
    rw [hw1]
    rfl
  · intro hcell hhc
    rw [hh] at hhc
    injection hhc with he
    subst he
    exact Nat.le_trans hle1 (Nat.le_max_left _ _)
  · intro row hmem cell hcell
    obtain ⟨w2, hw2, hle2⟩ := table_fold_cell rows _ i row cell hmem hcell ⟨_, hbase⟩
    rw [hw1] at hw2
    injection hw2 with he2
    subst he2
    exact Nat.le_trans hle2 (Nat.le_max_left _ _)

/-- C6 witness: the width law at a one-column table whose data cell is
longer than its header. -/
theorem table_width_law_witness :
    3 ≤ (((table_widths [[Inline.text "A"]] [[[Inline.text "Longer"]]]).get?
      0).getD 0) := by
  obtain ⟨w, hw, h3, _, _⟩ :=
    table_width_law [[Inline.text "A"]] [[[Inline.text "Longer"]]] 0 (by decide)
  rw [hw]
  exact h3

/-- C7: if any custom or built-in rule's filter matches an element,
`should_keep` and `should_remove` both return `false` (the rule's
replacement overrides keep/remove); and `should_remove` returns `true`
only when no keep filter matches the element. -/
theorem rules_dispatch_priority (rules : Rules) (el : ElementView) (o : Options) :
    (rules.rule_matches el o = true →
      rules.should_keep el o = false ∧ rules.should_remove el o = false) ∧
    (rules.should_remove el o = true →
      rules.keep_rules.any (fun f => f.matches el.name el o) = false) := by
  by_cases h1 :
      rules.custom_rules.any (fun p => p.2.filter.matches el.name el o) = true
  · refine ⟨fun _ => ⟨?_, ?_⟩, fun hr => ?_⟩
    · simp [Rules.should_keep, h1]
    · simp [Rules.should_remove, Rules.should_keep, h1]
    · simp [Rules.should_remove, Rules.should_keep, h1] at hr
  · by_cases h2 :
        rules.commonmark_rules.any (fun r => r.filter.matches el.name el o) = true
    · refine ⟨fun _ => ⟨?_, ?_⟩, fun hr => ?_⟩
      · simp [Rules.should_keep, h2]
      · simp [Rules.should_remove, Rules.should_keep, h2]
      · simp [Rules.should_remove, Rules.should_keep, h2] at hr
    · refine ⟨fun hm => ?_, fun hr => ?_⟩
      · exfalso
        simp only [Rules.rule_matches, Bool.or_eq_true] at hm
        rcases hm with hm | hm
        · exact h1 hm
        · exact h2 hm
      · by_cases h3 :
            rules.keep_rules.any (fun f => f.matches el.name el o) = true
        · simp [Rules.should_remove, Rules.should_keep, h1, h2, h3] at hr
        · simpa using h3

/-- C7 witness: dispatch priority at a concrete rule set in which a
custom rule for `p` matches while a keep filter for `p` is also
registered. -/
theorem rules_dispatch_priority_witness :
    (Rules.mk [("p", Rule.mk (Filter.tagName "p") (fun _ c _ => c))]
        [Filter.tagName "p"] [Filter.tagName "p"] []).should_keep
      (ElementView.mk "p" "<p>x</p>") Options.default = false ∧
    (Rules.mk [("p", Rule.mk (Filter.tagName "p") (fun _ c _ => c))]
        [Filter.tagName "p"] [Filter.tagName "p"] []).should_remove
      (ElementView.mk "p" "<p>x</p>") Options.default = false :=
  (rules_dispatch_priority
    (Rules.mk [("p", Rule.mk (Filter.tagName "p") (fun _ c _ => c))]
      [Filter.tagName "p"] [Filter.tagName "p"] [])
    (ElementView.mk "p" "<p>x</p>") Options.default).1 (by decide)

theorem table_widths_length (headers : List (List Inline))
    (rows : List (List (List Inline))) :
    (table_widths headers rows).length = headers.length := by
  simp only [table_widths, List.length_map, table_fold_length]

theorem serialize_table_isSome (headers : List (List Inline))
    (rows : List (List (List Inline))) (o : Options) :
    (serialize_table headers rows o).isSome = true := by
  unfold serialize_table
  split
  · simp
  · simp [table_widths_length]

theorem serialize_block_total (o : Options) :
    ∀ (d : Nat) (b : Block), (serialize_block o d b).isSome = true := by
  refine serialize_block.induct o
    (fun d b => (serialize_block o d b).isSome = true)
    (fun d ordered start indent i items =>
      (serialize_list_items o d ordered start indent i items).isSome = true)
    (fun d pl indent item =>
      (serialize_list_item o d pl indent item).isSome = true)
    (fun d bs => (serialize_item_blocks o d bs).isSome = true)
    (fun d last b => (serialize_item_block o d last b).isSome = true)
    (fun d bs => (serialize_blocks o d bs).isSome = true)
    ?_ ?_ ?_ ?_ ?_ ?_ ?_ ?_ ?_ ?_ ?_ ?_ ?_ ?_ ?_ ?_ ?_ ?_ ?_ ?_ ?_
  · intro d a h
    simpa [serialize_block] using h
  · intro d a a1
    simp [serialize_block]
  · intro d a
    simp [serialize_block]
  · intro d a h
    obtain ⟨s, hs⟩ := Option.isSome_iff_exists.mp h
    simp [serialize_block, hs]
  · intro d a a1 a2 h
    obtain ⟨s, hs⟩ := Option.isSome_iff_exists.mp h
    simp [serialize_block, hs]
  · intro d a a1 a2
    simp [serialize_block]
  · intro d
    simp [serialize_block]
  · intro d a a1
    simp [serialize_block, serialize_table_isSome]
  · intro d a
    simp [serialize_block]
  · intro d ordered start indent i
    simp [serialize_list_items]
  · intro d ordered start indent i item rest num pfx h3 h2
    unfold_let pfx num at h3
    obtain ⟨s1, hs1⟩ := Option.isSome_iff_exists.mp h3
    obtain ⟨s2, hs2⟩ := Option.isSome_iff_exists.mp h2
    cases ordered with
    | true =>
      simp only [serialize_list_items]
      simp only [dite_eq_ite] at hs1
      simp at hs1
      simp [hs1, hs2]
    | false =>
      simp only [serialize_list_items]
      simp only [dite_eq_ite] at hs1
      simp at hs1
      simp [hs1, hs2]
  · intro d pl indent a h
    obtain ⟨s, hs⟩ := Option.isSome_iff_exists.mp h
    simp [serialize_list_item, hs]
  · intro d
    simp [serialize_item_blocks]
  · intro d b h
    simpa [serialize_item_blocks] using h
  · intro d b rest hne h1 h4
    cases rest with
    | nil => exact absurd rfl hne
    | cons r rs =>
      obtain ⟨s1, hs1⟩ := Option.isSome_iff_exists.mp h1
      obtain ⟨s2, hs2⟩ := Option.isSome_iff_exists.mp h4
      simp [serialize_item_blocks, hs1, hs2]
  · intro d last inlines
    simp [serialize_item_block]
  · intro d last ord st its h
    obtain ⟨s, hs⟩ := Option.isSome_iff_exists.mp h
    simp [serialize_item_block, hs]
  · intro d last b hp hl h
    cases b with
    | paragraph inl => exact absurd rfl (hp inl)
    | list ord st its => exact absurd rfl (hl ord st its)
    | document cs => simpa [serialize_item_block] using h
    | heading lv ct => simpa [serialize_item_block] using h
    | blockQuote cs => simpa [serialize_item_block] using h
    | codeBlock lg cd fc => simpa [serialize_item_block] using h
    | thematicBreak => simpa [serialize_item_block] using h
    | table hd rw => simpa [serialize_item_block] using h
    | htmlBlock hb => simpa [serialize_item_block] using h
  · intro d
    simp [serialize_blocks]
  · intro d b rest hblank ih
    simp [serialize_blocks, hblank, ih]
  · intro d b rest hnb h1 h6
    obtain ⟨s1, hs1⟩ := Option.isSome_iff_exists.mp h1
    obtain ⟨s2, hs2⟩ := Option.isSome_iff_exists.mp h6
    simp [serialize_blocks, hnb, hs1, hs2]

/-- C8: serialization is total. `serialize` returns `some` string for
every `Block` value (empty containers, empty tables, zero-length text
and absent optional fields included); in the embedding a `none` result
would correspond to the one run-time-checked operation, the
`&widths[..col_count]` slice of `serialize_table`, going out of
bounds. -/
theorem serialize_total (b : Block) (o : Options) : ∃ s, serialize b o = some s := by
  obtain ⟨s, hs⟩ := Option.isSome_iff_exists.mp (serialize_block_total o 0 b)
  exact ⟨collapse_and_trim s, by simp [serialize, hs]⟩

/-- C1: the converters are not equivalent on lists, a construct both
are specified to support. For the input `<ul><li>One</li></ul>` the
streaming converter produces an empty document that serializes to `""`:
a closing `li` is finalized as a `Document` block and appended to the
parent `ul` context's `blocks`, but `ul`/`ol` finalization reads only
`list_items`, which no code path ever fills (despite the `li` arm's
comment that the parent will convert it), so the whole list vanishes.
The tree converter produces the list and serializes it to `"*   One"`. -/
theorem list_streaming_divergence :
    html_to_ast
      [HtmlEvent.open_tag "ul" [], HtmlEvent.open_tag "li" [],
        HtmlEvent.text_chunk "One", HtmlEvent.close_tag, HtmlEvent.close_tag]
      Options.default = Block.document [] ∧
    serialize
      (html_to_ast
        [HtmlEvent.open_tag "ul" [], HtmlEvent.open_tag "li" [],
          HtmlEvent.text_chunk "One", HtmlEvent.close_tag, HtmlEvent.close_tag]
        Options.default) Options.default = some "" ∧
    serialize
      (convert
        (Node.mk NodeType.element "ul" none []
          [Node.mk NodeType.element "li" none []
            [Node.mk NodeType.text "" (some "One") [] []]])
        Options.default) Options.default = some "*   One" := by
  have hstream : html_to_ast
      [HtmlEvent.open_tag "ul" [], HtmlEvent.open_tag "li" [],
        HtmlEvent.text_chunk "One", HtmlEvent.close_tag, HtmlEvent.close_tag]
      Options.default = Block.document [] := rfl
  have hconv : convert
      (Node.mk NodeType.element "ul" none []
        [Node.mk NodeType.element "li" none []
          [Node.mk NodeType.text "" (some "One") [] []]])
      Options.default =
      Block.list false 1 [ListItem.mk [Block.paragraph [Inline.text "One"]]] := by
    have h1 : rust_to_lowercase "ul" = "ul" := by decide
    have h2 : rust_to_lowercase "li" = "li" := by decide
    have h3 : escape_markdown (collapse_whitespace "One") = "One" := by decide
    simp +decide [convert, convert_element, convert_nodes, collect_li_items,
      collect_inlines_nodes, convert_inline_element, flatten_document, h1, h2,
      h3, Node.is_element, Node.node_type, Node.children, Node.node_value,
      Node.tag_name, inlines_blank, Inline.is_blank]
  have hser0 : serialize (Block.document []) Options.default = some "" := by
    simp +decide [serialize, serialize_block, serialize_blocks, collapse_and_trim]
  have hser1 : serialize
      (Block.list false 1 [ListItem.mk [Block.paragraph [Inline.text "One"]]])
      Options.default = some "*   One" := by
    simp +decide [serialize, serialize_block, serialize_list_items,
      serialize_list_item, serialize_item_blocks, serialize_item_block,
      serialize_inlines, serialize_inline, indent_item_lines, str_repeat,
      collapse_and_trim, char_repeat]
  exact ⟨hstream, by rw [hstream]; exact hser0, by rw [hconv]; exact hser1⟩

end Turndown
